import Mathlib

/-!
# gofigure: the `set` package (`collections/set/set.go`)

A shallow embedding of the generic `Set[T]` container and of its operations.

* Go's `==` on the element type `T` is the `BEq T` instance.  For the Go integer
  and string types it is equality itself, which is what an element type with
  `DecidableEq` carries; for `float64` it is the instance on `Float64` below,
  where `NaN == NaN` is `false`.
* `size` is a Go `uint64`: it is a natural number and every update is reduced
  modulo `2 ^ 64`.
* `elements` is the Go slice seen through the slice header stored in the set.
  The only library call that writes through it without the header being
  reassigned is `slices.Delete`, modelled in `Delete` below.
* A Go run-time panic is the value `none`.
-/

namespace GoFigure

/-- Modulus of the Go type `uint64`. -/
def U64 : Nat := 2 ^ 64

/-- Go conversion `int(u)` of a `uint64` value on a 64-bit platform (two's complement). -/
def toInt (u : Nat) : Int :=
  if u < 2 ^ 63 then (u : Int) else (u : Int) - 2 ^ 64

/-- The struct `Set[T]`: the cached counter and the stored sequence. -/
structure Set (T : Type) where
  size : Nat
  elements : List T
deriving DecidableEq, Repr

/-- The library function `slices.Delete(s, i, j)` of `golang.org/x/exp/slices`.
It panics (`none`) unless `0 ≤ i ≤ j ≤ len(s)`.  Otherwise it moves `s[j:]` down to
position `i` inside the backing array of `s` and returns the shortened slice.  The
result is a pair: the returned slice, and the contents seen afterwards through the
caller's own slice header, whose length is unchanged.  The two published behaviours
differ only in the vacated tail: with `clr = none` the tail keeps its old values
(`append(s[:i], s[j:]...)` alone), with `clr = some z` it is overwritten with the
zero value `z` of the element type. -/
def Delete {T : Type} (clr : Option T) (s : List T) (i j : Int) : Option (List T × List T) :=
  if 0 ≤ i ∧ i ≤ j ∧ j ≤ (s.length : Int) then
    let kept := s.take i.toNat ++ s.drop j.toNat
    let tail := match clr with
      | none => s.drop kept.length
      | some z => List.replicate (j.toNat - i.toNat) z
    some (kept, kept ++ tail)
  else none

section Definitions

variable {T : Type} [BEq T]

namespace Set

/-- Method `Size`. -/
def Size (s : Set T) : Nat := s.size

/-- Method `Length`. -/
def Length (s : Set T) : Nat := s.size

/-- Method `Cardinality`. -/
def Cardinality (s : Set T) : Nat := s.size

/-- Method `In`: linear scan, `true` at the first equal item. -/
def In (s : Set T) (element : T) : Bool :=
  s.elements.any (fun item => item == element)

/-- Method `NotIn`: linear scan, `false` at the first equal item. -/
def NotIn (s : Set T) (element : T) : Bool :=
  s.elements.all (fun item => !(item == element))

/-- One iteration of the loop of `Add`. -/
def addStep (s : Set T) (element : T) : Set T :=
  if s.NotIn element then
    { size := (s.size + 1) % U64, elements := s.elements ++ [element] }
  else s

/-- Method `Add`. -/
def Add (s : Set T) (elements : List T) : Set T :=
  elements.foldl addStep s

end Set

open Set

/-- Function `New`. -/
def New (elements : List T) : Set T :=
  Set.Add { size := 0, elements := [] } elements

namespace Set

/-- Method `IsDisjoint`. -/
def IsDisjoint (s other : Set T) : Bool :=
  s.elements.all (fun element => !other.In element)

/-- Method `IsSubset`: the loop ranges over `other.elements` and asks `other.NotIn`. -/
def IsSubset (_s other : Set T) : Bool :=
  other.elements.all (fun element => !other.NotIn element)

/-- Method `IsSuperset`. -/
def IsSuperset (s other : Set T) : Bool :=
  other.elements.all (fun element => !s.NotIn element)

/-- Method `Union`: the receiver is not read; sizes are summed and the stored
sequences of `others` are concatenated. -/
def Union (_s : Set T) (others : List (Set T)) : Set T :=
  let r := others.foldl
    (fun (acc : Nat × Set T) other =>
      ((acc.1 + other.size) % U64, { acc.2 with elements := acc.2.elements ++ other.elements }))
    (0, New [])
  { r.2 with size := r.1 }

/-- Method `Copy`. -/
def Copy (s : Set T) : Set T :=
  s.elements.foldl (fun set element => set.Add [element]) (New [])

/-- One iteration of the loop of `Remove`, at position `index` of the argument list. -/
def removeStep (clr : Option T) (st : Option (Set T)) (p : Nat × T) : Option (Set T) :=
  match st with
  | none => none
  | some s =>
    if s.In p.2 then
      match Delete clr s.elements (p.1 : Int) ((p.1 : Int) + 1) with
      | none => none
      | some r => some { size := (s.size + U64 - 1) % U64, elements := r.2 }
    else some s

/-- Method `Remove`; `none` when `slices.Delete` panics. -/
def Remove (clr : Option T) (s : Set T) (elements : List T) : Option (Set T) :=
  elements.enum.foldl (removeStep clr) (some s)

/-- Method `Clear`; `none` when `slices.Delete` panics. -/
def Clear (clr : Option T) (s : Set T) : Option (Set T) :=
  match Delete clr s.elements 0 (toInt s.Size) with
  | none => none
  | some r => some { size := 0, elements := r.2 }

/-- Method `Intersection`: an element of the receiver is added when no set of
`others` reports `NotIn`. -/
def Intersection (s : Set T) (others : List (Set T)) : Set T :=
  s.elements.foldl
    (fun set element =>
      if others.all (fun other => !other.NotIn element) then set.Add [element] else set)
    (New [])

/-- Method `Difference`: an element of the receiver is added when no set of `others`
reports `In`. -/
def Difference (s : Set T) (others : List (Set T)) : Set T :=
  s.elements.foldl
    (fun set element =>
      if others.all (fun other => !other.In element) then set.Add [element] else set)
    (New [])

/-- Method `SymmetricDifference`: the two loops run one after the other on the same
result set. -/
def SymmetricDifference (s other : Set T) : Set T :=
  let set := s.elements.foldl
    (fun set element => if other.NotIn element then set.Add [element] else set) (New [])
  other.elements.foldl
    (fun set element => if s.NotIn element then set.Add [element] else set) set

/-- The loop of `Index`, started at position `i`. -/
def indexLoop (item : T) : List T → Nat → Int × Bool
  | [], _ => (-1, false)
  | element :: rest, i =>
    if element == item then ((i : Int), true) else indexLoop item rest (i + 1)

/-- Method `Index`. -/
def Index (s : Set T) (item : T) : Int × Bool :=
  indexLoop item s.elements 0

/-- Method `IsEmpty`. -/
def IsEmpty (s : Set T) : Bool :=
  decide (s.size = 0)

end Set

/-- Function `Equal` of package `common`: after the length test, the nested loops
return `false` at the first pair of unequal elements. -/
def Equal (self other : List T) : Bool :=
  if self.length ≠ other.length then false
  else self.all (fun element => other.all (fun otherElement => !(element != otherElement)))

end Definitions

open Set

/-- The values of a Go `float64` as far as `==` tells them apart: `NaN`, or a number
(the two zeros are one number; the infinities, which `==` treats as any other value,
are left out). -/
inductive Float64 where
  | NaN
  | num (q : ℚ)
deriving DecidableEq

/-- Go's `==` on `float64`: `false` as soon as one side is `NaN`. -/
def Float64.eq : Float64 → Float64 → Bool
  | .num a, .num b => decide (a = b)
  | _, _ => false

instance (priority := 2000) : BEq Float64 := ⟨Float64.eq⟩

variable {T : Type} [DecidableEq T]

/-- Representation invariant of the data model: no repeated element, and the
counter equals the length of the stored sequence. -/
def WellFormed (s : Set T) : Prop :=
  s.elements.Nodup ∧ s.size = s.elements.length

instance (s : Set T) : Decidable (WellFormed s) := by
  unfold WellFormed; infer_instance

/-! ## Facts that hold for every `==` -/

theorem NotIn_eq_not_In_of_any_eq {E : Type} [BEq E] (s : Set E) (x : E) :
    s.NotIn x = !s.In x := by
  unfold Set.NotIn Set.In
  induction s.elements with
  | nil => rfl
  | cons a l ih => simp [List.all_cons, List.any_cons, ih]

/-- When `In` reports the element, the loop body of `Add` is skipped, whatever `==` is. -/
theorem Add_of_In {E : Type} [BEq E] (s : Set E) (x : E) (h : s.In x = true) :
    s.Add [x] = s := by
  have hn : s.NotIn x = false := by rw [NotIn_eq_not_In_of_any_eq, h]; rfl
  show s.addStep x = s
  unfold Set.addStep
  rw [hn]
  rfl

/-! ## Membership -/

theorem In_iff_mem (s : Set T) (x : T) : s.In x = true ↔ x ∈ s.elements := by
  simp [Set.In]

theorem NotIn_eq_not_In (s : Set T) (x : T) : s.NotIn x = !s.In x := by
  cases h : s.In x
  · have hx : x ∉ s.elements := by
      intro hm
      rw [(In_iff_mem s x).2 hm] at h
      exact Bool.noConfusion h
    simp only [Set.NotIn, Bool.not_false, List.all_eq_true]
    intro y hy
    have hne : y ≠ x := fun e => hx (e ▸ hy)
    simp [hne]
  · have hx : x ∈ s.elements := (In_iff_mem s x).1 h
    simp only [Set.NotIn, Bool.not_true]
    rw [Bool.eq_false_iff]
    intro hall
    have := (List.all_eq_true.1 hall) x hx
    simp at this

theorem NotIn_iff_not_mem (s : Set T) (x : T) : s.NotIn x = true ↔ x ∉ s.elements := by
  rw [NotIn_eq_not_In, ← In_iff_mem]
  cases s.In x <;> simp

/-! ## The insertion path -/

theorem addStep_of_mem (s : Set T) (x : T) (h : x ∈ s.elements) : s.addStep x = s := by
  have hn : s.NotIn x = false := by
    rw [NotIn_eq_not_In, (In_iff_mem s x).2 h]; rfl
  simp [Set.addStep, hn]

theorem addStep_of_not_mem (s : Set T) (x : T) (h : x ∉ s.elements) :
    s.addStep x = { size := (s.size + 1) % U64, elements := s.elements ++ [x] } := by
  have hn : s.NotIn x = true := (NotIn_iff_not_mem s x).2 h
  simp [Set.addStep, hn]

theorem Add_nil (s : Set T) : s.Add [] = s := rfl

theorem Add_cons (s : Set T) (x : T) (xs : List T) :
    s.Add (x :: xs) = (s.addStep x).Add xs := rfl

theorem Add_singleton (s : Set T) (x : T) : s.Add [x] = s.addStep x := rfl

theorem mem_addStep (s : Set T) (x y : T) :
    y ∈ (s.addStep x).elements ↔ y ∈ s.elements ∨ y = x := by
  by_cases h : x ∈ s.elements
  · rw [addStep_of_mem s x h]
    constructor
    · exact Or.inl
    · rintro (h1 | h1)
      · exact h1
      · exact h1 ▸ h
  · rw [addStep_of_not_mem s x h]
    simp

theorem mem_Add (s : Set T) (xs : List T) (y : T) :
    y ∈ (s.Add xs).elements ↔ y ∈ s.elements ∨ y ∈ xs := by
  induction xs generalizing s with
  | nil => simp [Add_nil]
  | cons x xs ih =>
    rw [Add_cons, ih, mem_addStep]
    simp only [List.mem_cons]
    tauto

theorem addStep_nodup (s : Set T) (x : T) (h : s.elements.Nodup) :
    (s.addStep x).elements.Nodup := by
  by_cases hx : x ∈ s.elements
  · rw [addStep_of_mem s x hx]; exact h
  · rw [addStep_of_not_mem s x hx]
    simp only
    rw [List.nodup_append]
    refine ⟨h, List.nodup_singleton x, ?_⟩
    intro a ha hb
    rw [List.mem_singleton] at hb
    exact hx (hb ▸ ha)

theorem Add_nodup (s : Set T) (xs : List T) (h : s.elements.Nodup) :
    (s.Add xs).elements.Nodup := by
  induction xs generalizing s with
  | nil => exact h
  | cons x xs ih => rw [Add_cons]; exact ih _ (addStep_nodup s x h)

theorem addStep_length_le (s : Set T) (x : T) :
    s.elements.length ≤ (s.addStep x).elements.length := by
  by_cases hx : x ∈ s.elements
  · rw [addStep_of_mem s x hx]
  · rw [addStep_of_not_mem s x hx]; simp

theorem Add_length_le (s : Set T) (xs : List T) :
    s.elements.length ≤ (s.Add xs).elements.length := by
  induction xs generalizing s with
  | nil => exact le_refl _
  | cons x xs ih => rw [Add_cons]; exact le_trans (addStep_length_le s x) (ih _)

/-- The counter after one step of `Add`, as a residue: it moves by the number of
elements appended. -/
theorem addStep_size (s : Set T) (x : T) :
    (s.addStep x).size % U64
      = (s.size + ((s.addStep x).elements.length - s.elements.length)) % U64 := by
  by_cases hx : x ∈ s.elements
  · rw [addStep_of_mem s x hx]; simp
  · rw [addStep_of_not_mem s x hx]; simp

theorem Add_size (s : Set T) (xs : List T) :
    (s.Add xs).size % U64
      = (s.size + ((s.Add xs).elements.length - s.elements.length)) % U64 := by
  induction xs generalizing s with
  | nil => simp [Add_nil]
  | cons x xs ih =>
    rw [Add_cons, ih, Nat.add_mod, addStep_size, ← Nat.add_mod]
    have h1 := addStep_length_le s x
    have h2 := Add_length_le (s.addStep x) xs
    congr 1
    omega

theorem addStep_size_lt (s : Set T) (x : T) (h : s.size < U64) : (s.addStep x).size < U64 := by
  unfold Set.addStep
  split
  · exact Nat.mod_lt _ (by unfold U64; positivity)
  · exact h

theorem Add_size_lt (s : Set T) (xs : List T) (h : s.size < U64) : (s.Add xs).size < U64 := by
  induction xs generalizing s with
  | nil => exact h
  | cons x xs ih => rw [Add_cons]; exact ih _ (addStep_size_lt s x h)

theorem New_elements_nodup (xs : List T) : (New xs).elements.Nodup :=
  Add_nodup _ xs List.nodup_nil

theorem mem_New (xs : List T) (y : T) : y ∈ (New xs).elements ↔ y ∈ xs := by
  unfold New; rw [mem_Add]; simp

theorem New_elements_length (xs : List T) : (New xs).elements.length = xs.toFinset.card := by
  rw [← List.toFinset_card_of_nodup (New_elements_nodup xs)]
  congr 1
  ext y
  simp [mem_New]

theorem New_size_mod (xs : List T) : (New xs).size = xs.toFinset.card % U64 := by
  have h := Add_size ({ size := 0, elements := [] } : Set T) xs
  have hlt : (New xs).size < U64 := Add_size_lt _ xs (by unfold U64; positivity)
  have hl := New_elements_length xs
  unfold New at hlt hl ⊢
  rw [Nat.mod_eq_of_lt hlt] at h
  rw [h]
  simp [hl]

/-! ## Derived sets and predicates -/

theorem Copy_eq_New (s : Set T) : s.Copy = New s.elements := rfl

/-- Membership is the same on a copy and on the original, for every set. -/
theorem Copy_In (s : Set T) (x : T) : s.Copy.In x = s.In x := by
  rw [Bool.eq_iff_iff, In_iff_mem, In_iff_mem, Copy_eq_New, mem_New]

/-- The cardinality of a copy is the number of distinct stored values. -/
theorem Copy_size_mod (s : Set T) : s.Copy.size = s.elements.toFinset.card % U64 := by
  rw [Copy_eq_New, New_size_mod]

/-- The loop of `IsSubset` never finds a witness: the method returns `true` on every
pair of sets. -/
theorem IsSubset_eq_true (s other : Set T) : s.IsSubset other = true := by
  simp only [Set.IsSubset, List.all_eq_true]
  intro y hy
  rw [NotIn_eq_not_In, (In_iff_mem other y).2 hy]
  rfl

/-- The result of `Union` is the same whatever the receiver. -/
theorem Union_receiver_irrelevant (s t : Set T) (others : List (Set T)) :
    s.Union others = t.Union others := rfl

/-! ## Claims -/

/-- C1: `New(NaN, NaN, 1, 1)` on `float64` has cardinality 3, while its arguments
hold two distinct values: `NotIn(NaN)` is `true` on every set, so each `NaN` is
appended. -/
theorem New_counts_each_NaN :
    (New [Float64.NaN, Float64.NaN, Float64.num 1, Float64.num 1]).Cardinality = 3
      ∧ (New [Float64.NaN, Float64.NaN, Float64.num 1, Float64.num 1]).elements
          = [Float64.NaN, Float64.NaN, Float64.num 1]
      ∧ ([Float64.NaN, Float64.NaN, Float64.num 1, Float64.num 1] : List Float64).toFinset.card
          = 2 := by
  decide

/-- Where `==` is equality (integers, strings) and for every argument list `xs` (a Go
slice, so shorter than `2 ^ 64`), `New(xs...).Cardinality()` is the number of distinct
values occurring in `xs`. -/
theorem New_cardinality_distinct (xs : List T) (h : xs.length < 2 ^ 64) :
    (New xs).Cardinality = xs.toFinset.card := by
  have hc : xs.toFinset.card < U64 :=
    lt_of_le_of_lt (List.toFinset_card_le xs) h
  show (New xs).size = _
  rw [New_size_mod, Nat.mod_eq_of_lt hc]

theorem New_cardinality_distinct_witness :
    ([1, 1, 2, 3, 4, 4] : List Int).length < 2 ^ 64
      ∧ (New ([1, 1, 2, 3, 4, 4] : List Int)).Cardinality = 4
      ∧ (New ([] : List Int)).Cardinality = 0 :=
  ⟨by decide,
   (New_cardinality_distinct ([1, 1, 2, 3, 4, 4] : List Int) (by decide)).trans (by decide),
   (New_cardinality_distinct ([] : List Int) (by decide)).trans (by decide)⟩

/-- C2: the representation invariant does not survive `Remove`, `Clear` or `Union`.
`New(1,2,3).Remove(1)` leaves a counter of 2 over a stored sequence of length 3 (with a
repeated element when the vacated tail is kept), `New(1).Clear()` leaves a counter of 0
over a stored sequence of length 1, and `New(1).Union(New(1), New(1))` stores `[1, 1]`. -/
theorem invariant_broken_by_Remove_Clear_Union :
    Set.Remove none (New [1, 2, 3] : Set Int) [1] = some ⟨2, [2, 3, 3]⟩
      ∧ ¬ WellFormed (⟨2, [2, 3, 3]⟩ : Set Int)
      ∧ Set.Remove (some 0) (New [1, 2, 3] : Set Int) [1] = some ⟨2, [2, 3, 0]⟩
      ∧ ¬ WellFormed (⟨2, [2, 3, 0]⟩ : Set Int)
      ∧ Set.Clear none (New [1] : Set Int) = some ⟨0, [1]⟩
      ∧ ¬ WellFormed (⟨0, [1]⟩ : Set Int)
      ∧ Set.Clear (some 0) (New [1] : Set Int) = some ⟨0, [0]⟩
      ∧ ¬ WellFormed (⟨0, [0]⟩ : Set Int)
      ∧ (New [1] : Set Int).Union [New [1], New [1]] = ⟨2, [1, 1]⟩
      ∧ ¬ WellFormed (⟨2, [1, 1]⟩ : Set Int) := by
  decide

/-- C3: `Union` does not read its receiver.  `New(1).Union()` is empty although 1 is
a member of the receiver, and `New(1).Union(New(1), New(1))` has cardinality 2 for a
single distinct value. -/
theorem Union_drops_receiver_and_repeats :
    (New [1] : Set Int).In 1 = true
      ∧ ((New [1] : Set Int).Union []).In 1 = false
      ∧ ((New [1] : Set Int).Union []).Cardinality = 0
      ∧ ((New [1] : Set Int).Union [New [1], New [1]]).Cardinality = 2 := by
  decide

/-- C4: `New(1,2).IsSubset(New(1))` returns `true` although 2 is a member of the
receiver and not of the argument. -/
theorem IsSubset_true_on_non_subset :
    (New [1, 2] : Set Int).IsSubset (New [1]) = true
      ∧ (New [1, 2] : Set Int).In 2 = true
      ∧ (New [1] : Set Int).In 2 = false := by
  decide

/-- C5: after `New(1,2,3).Remove(2)` the value 2 is still a member and the value 1,
which was not named, is no longer one, under either behaviour of `slices.Delete`. -/
theorem Remove_deletes_first_position :
    (∃ s, Set.Remove none (New [1, 2, 3] : Set Int) [2] = some s
        ∧ s.In 2 = true ∧ s.In 1 = false)
      ∧ (∃ s, Set.Remove (some 0) (New [1, 2, 3] : Set Int) [2] = some s
        ∧ s.In 2 = true ∧ s.In 1 = false) :=
  ⟨⟨⟨2, [2, 3, 3]⟩, by decide⟩, ⟨⟨2, [2, 3, 0]⟩, by decide⟩⟩

/-- C6: `New(1).Remove(5, 1)` panics: the member 1 stands at position 1 of the
argument list and the stored sequence has length 1.  `Clear` panics as well on the set
reached from `New(0)` by two calls `Remove(0)`, whose counter has wrapped to
`2 ^ 64 - 1`.  Both hold under either behaviour of `slices.Delete`. -/
theorem Remove_and_Clear_panic :
    Set.Remove none (New [1] : Set Int) [5, 1] = none
      ∧ Set.Remove (some 0) (New [1] : Set Int) [5, 1] = none
      ∧ ((Set.Remove none (New [0] : Set Int) [0]).bind (fun s => Set.Remove none s [0])
          = some ⟨2 ^ 64 - 1, [0]⟩)
      ∧ ((Set.Remove (some 0) (New [0] : Set Int) [0]).bind
          (fun s => Set.Remove (some 0) s [0]) = some ⟨2 ^ 64 - 1, [0]⟩)
      ∧ Set.Clear none (⟨2 ^ 64 - 1, [0]⟩ : Set Int) = none
      ∧ Set.Clear (some 0) (⟨2 ^ 64 - 1, [0]⟩ : Set Int) = none := by
  decide

/-- C7: after `New(0).Clear()` the stored sequence still has one element, 0 is still
a member, and a following `Add(0)` leaves the cardinality at 0, under either behaviour
of `slices.Delete`; when the vacated tail is kept, `New(1).Clear()` keeps 1 a member. -/
theorem Clear_keeps_stored_sequence :
    (∃ s, Set.Clear none (New [0] : Set Int) = some s
        ∧ s.elements = [0] ∧ s.In 0 = true ∧ (s.Add [0]).Cardinality = 0)
      ∧ (∃ s, Set.Clear (some 0) (New [0] : Set Int) = some s
        ∧ s.elements = [0] ∧ s.In 0 = true ∧ (s.Add [0]).Cardinality = 0)
      ∧ (∃ s, Set.Clear none (New [1] : Set Int) = some s ∧ s.In 1 = true) :=
  ⟨⟨⟨0, [0]⟩, by decide⟩, ⟨⟨0, [0]⟩, by decide⟩, ⟨⟨0, [1]⟩, by decide⟩⟩

/-- C8: the copy of `New(1).Union(New(1), New(1))` has cardinality 1 while the set
itself reports 2, and the copy of `New(0).Clear()` has cardinality 1 while the set
itself reports 0. -/
theorem Copy_cardinality_differs :
    ((New [1] : Set Int).Union [New [1], New [1]]).Cardinality = 2
      ∧ ((New [1] : Set Int).Union [New [1], New [1]]).Copy.Cardinality = 1
      ∧ (∃ s, Set.Clear none (New [0] : Set Int) = some s
          ∧ s.Cardinality = 0 ∧ s.Copy.Cardinality = 1)
      ∧ (∃ s, Set.Clear (some 0) (New [0] : Set Int) = some s
          ∧ s.Cardinality = 0 ∧ s.Copy.Cardinality = 1) :=
  ⟨by decide, by decide, ⟨⟨0, [0]⟩, by decide⟩, ⟨⟨0, [0]⟩, by decide⟩⟩

/-- C9: `New(1,2,3).Remove(2,2)` leaves cardinality 1, not 2: the repeated argument
is counted twice, under either behaviour of `slices.Delete`. -/
theorem Remove_repeated_argument_counted_twice :
    (New [1, 2, 3] : Set Int).Cardinality = 3
      ∧ (Set.Remove none (New [1, 2, 3] : Set Int) [2, 2]).map Set.Cardinality = some 1
      ∧ (Set.Remove (some 0) (New [1, 2, 3] : Set Int) [2, 2]).map Set.Cardinality
          = some 1 := by
  decide

/-- C10: on `float64`, `Add(NaN)` twice on the empty set stores `NaN` twice with
cardinality 2, against cardinality 1 after a single `Add(NaN)`: `In(NaN)` stays
`false` on the set that stores `NaN`. -/
theorem Add_NaN_twice_appends_twice :
    (New ([] : List Float64)).Add [Float64.NaN] = ⟨1, [Float64.NaN]⟩
      ∧ ((New ([] : List Float64)).Add [Float64.NaN]).In Float64.NaN = false
      ∧ ((New ([] : List Float64)).Add [Float64.NaN]).Add [Float64.NaN]
          = ⟨2, [Float64.NaN, Float64.NaN]⟩ := by
  decide

/-- Where `==` is equality (integers, strings): `Add` of a present element changes
neither the cardinality nor the stored sequence, and two successive `Add(x)` have the
effect of one. -/
theorem Add_idempotent (s : Set T) (x : T) :
    (s.In x = true →
        (s.Add [x]).Cardinality = s.Cardinality ∧ (s.Add [x]).elements = s.elements)
      ∧ (s.Add [x]).Add [x] = s.Add [x] := by
  refine ⟨fun h => ?_, ?_⟩
  · rw [Add_singleton, addStep_of_mem s x ((In_iff_mem s x).1 h)]
    exact ⟨rfl, rfl⟩
  · rw [Add_singleton, Add_singleton]
    exact addStep_of_mem _ x ((mem_addStep s x x).2 (Or.inr rfl))

theorem Add_idempotent_witness :
    (New [1, 2, 3] : Set Int).In 2 = true
      ∧ ((New [1, 2, 3] : Set Int).Add [2]).Cardinality = 3
      ∧ ((New [1, 2, 3] : Set Int).Add [2]).elements = [1, 2, 3]
      ∧ ((New [1, 2, 3] : Set Int).Add [7]).Add [7] = (New [1, 2, 3] : Set Int).Add [7] :=
  ⟨by decide,
   ((Add_idempotent (New [1, 2, 3] : Set Int) 2).1 (by decide)).1.trans (by decide),
   ((Add_idempotent (New [1, 2, 3] : Set Int) 2).1 (by decide)).2.trans (by decide),
   (Add_idempotent (New [1, 2, 3] : Set Int) 7).2⟩

/-! ## Filtered insertion loops -/

/-- A loop that adds the elements passing a test is `Add` of the filtered list. -/
theorem foldl_cond_Add (p : T → Bool) (l : List T) (init : Set T) :
    l.foldl (fun set element => if p element then set.Add [element] else set) init
      = init.Add (l.filter p) := by
  induction l generalizing init with
  | nil => rfl
  | cons a l ih =>
    rw [List.foldl_cons, ih]
    cases hp : p a
    · simp [List.filter_cons, hp]
    · simp [List.filter_cons, hp, Add_cons, Add_singleton, Add_nil]

theorem Intersection_eq (s : Set T) (others : List (Set T)) :
    s.Intersection others
      = New (s.elements.filter (fun e => others.all (fun other => !other.NotIn e))) := by
  unfold Set.Intersection
  rw [foldl_cond_Add]
  rfl

theorem Difference_eq (s : Set T) (others : List (Set T)) :
    s.Difference others
      = New (s.elements.filter (fun e => others.all (fun other => !other.In e))) := by
  unfold Set.Difference
  rw [foldl_cond_Add]
  rfl

theorem Add_append (s : Set T) (xs ys : List T) : s.Add (xs ++ ys) = (s.Add xs).Add ys := by
  unfold Set.Add
  rw [List.foldl_append]

theorem SymmetricDifference_eq (s other : Set T) :
    s.SymmetricDifference other
      = New (s.elements.filter (fun e => other.NotIn e)
          ++ other.elements.filter (fun e => s.NotIn e)) := by
  unfold Set.SymmetricDifference
  simp only
  rw [foldl_cond_Add, foldl_cond_Add]
  unfold New
  rw [Add_append, Add_nil]

theorem mem_Intersection (s : Set T) (others : List (Set T)) (x : T) :
    x ∈ (s.Intersection others).elements
      ↔ x ∈ s.elements ∧ ∀ o ∈ others, x ∈ o.elements := by
  rw [Intersection_eq, mem_New, List.mem_filter, List.all_eq_true]
  refine and_congr Iff.rfl (forall₂_congr fun o _ => ?_)
  rw [NotIn_eq_not_In, Bool.not_not, In_iff_mem]

theorem mem_Difference (s : Set T) (others : List (Set T)) (x : T) :
    x ∈ (s.Difference others).elements
      ↔ x ∈ s.elements ∧ ∀ o ∈ others, x ∉ o.elements := by
  rw [Difference_eq, mem_New, List.mem_filter, List.all_eq_true]
  refine and_congr Iff.rfl (forall₂_congr fun o _ => ?_)
  rw [← In_iff_mem]
  cases o.In x <;> simp

theorem mem_SymmetricDifference (s other : Set T) (x : T) :
    x ∈ (s.SymmetricDifference other).elements
      ↔ (x ∈ s.elements ∧ x ∉ other.elements) ∨ (x ∈ other.elements ∧ x ∉ s.elements) := by
  rw [SymmetricDifference_eq, mem_New, List.mem_append, List.mem_filter, List.mem_filter,
    NotIn_iff_not_mem, NotIn_iff_not_mem]

theorem In_eq_false_iff (s : Set T) (x : T) : s.In x = false ↔ x ∉ s.elements := by
  rw [← In_iff_mem]
  cases s.In x <;> simp

/-! ## Claims on the derived sets and predicates -/

/-- C11: `x` is a member of `s.Intersection(others...)` exactly when it is a member
of `s` and of every set of `others`; with no other set the members are those of `s`;
`s.Intersection(t)` and `t.Intersection(s)` have the same members. -/
theorem Intersection_In (s t : Set T) (others : List (Set T)) (x : T) :
    ((s.Intersection others).In x = true
        ↔ s.In x = true ∧ ∀ o ∈ others, o.In x = true)
      ∧ (s.Intersection []).In x = s.In x
      ∧ (s.Intersection [t]).In x = (t.Intersection [s]).In x := by
  refine ⟨?_, ?_, ?_⟩
  · simp only [In_iff_mem]
    exact mem_Intersection s others x
  · rw [Bool.eq_iff_iff, In_iff_mem, In_iff_mem, mem_Intersection]
    simp
  · rw [Bool.eq_iff_iff, In_iff_mem, In_iff_mem, mem_Intersection, mem_Intersection]
    simp only [List.mem_singleton, forall_eq]
    exact and_comm

theorem Intersection_In_witness :
    ((New [1, 2, 3] : Set Int).Intersection [New [2, 3, 4], New [3, 2]]).In 2 = true
      ∧ ((New [1, 2, 3] : Set Int).Intersection [New [2, 3, 4], New [3, 2]]).In 1 = false :=
  ⟨(Intersection_In (New [1, 2, 3] : Set Int) (New []) [New [2, 3, 4], New [3, 2]] 2).1.2
      (by decide),
   by decide⟩

/-- C12: `x` is a member of `s.Difference(others...)` exactly when it is a member of
`s` and of none of the sets of `others`. -/
theorem Difference_In (s : Set T) (others : List (Set T)) (x : T) :
    (s.Difference others).In x = true
      ↔ s.In x = true ∧ ∀ o ∈ others, o.In x = false := by
  simp only [In_iff_mem, In_eq_false_iff]
  exact mem_Difference s others x

theorem Difference_In_witness :
    ((New [1, 2, 3] : Set Int).Difference [New [2], New [5, 3]]).In 1 = true
      ∧ ((New [1, 2, 3] : Set Int).Difference [New [2], New [5, 3]]).In 3 = false :=
  ⟨(Difference_In (New [1, 2, 3] : Set Int) [New [2], New [5, 3]] 1).2 (by decide),
   by decide⟩

/-- C13: `x` is a member of `A.SymmetricDifference(B)` exactly when it is a member of
exactly one of `A` and `B`. -/
theorem SymmetricDifference_In (A B : Set T) (x : T) :
    (A.SymmetricDifference B).In x = true
      ↔ (A.In x = true ∧ B.In x = false) ∨ (B.In x = true ∧ A.In x = false) := by
  simp only [In_iff_mem, In_eq_false_iff]
  exact mem_SymmetricDifference A B x

theorem SymmetricDifference_In_witness :
    (New ["x", "y"]).SymmetricDifference (New ["y", "z"]) = ⟨2, ["x", "z"]⟩
      ∧ ((New ["x", "y"]).SymmetricDifference (New ["y", "z"])).In "x" = true
      ∧ ((New ["x", "y"]).SymmetricDifference (New ["y", "z"])).In "z" = true
      ∧ ((New ["x", "y"]).SymmetricDifference (New ["y", "z"])).In "y" = false :=
  ⟨by decide,
   (SymmetricDifference_In (New ["x", "y"]) (New ["y", "z"]) "x").2 (Or.inl (by decide)),
   (SymmetricDifference_In (New ["x", "y"]) (New ["y", "z"]) "z").2 (Or.inr (by decide)),
   by decide⟩

/-- With both differences passed as arguments, `Union` has the members of the
symmetric difference, whatever its receiver. -/
theorem SymmetricDifference_In_eq_Union_args (A B r : Set T) (x : T) :
    (A.SymmetricDifference B).In x = (r.Union [A.Difference [B], B.Difference [A]]).In x := by
  have hu : (r.Union [A.Difference [B], B.Difference [A]]).elements
      = ([] ++ (A.Difference [B]).elements) ++ (B.Difference [A]).elements := rfl
  rw [Bool.eq_iff_iff, In_iff_mem, In_iff_mem, hu, mem_SymmetricDifference]
  simp only [List.nil_append, List.mem_append, mem_Difference, List.mem_singleton, forall_eq]

/-- C14: with `A = New(1)` and `B = New()`, 1 is a member of `A.SymmetricDifference(B)`
and not of `A.Difference(B).Union(B.Difference(A))`, whose receiver is not read. -/
theorem SymmetricDifference_ne_Union_of_Differences :
    ((New [1] : Set Int).SymmetricDifference (New [])).In 1 = true
      ∧ (((New [1] : Set Int).Difference [New []]).Union
          [(New [] : Set Int).Difference [New [1]]]).In 1 = false := by
  decide

theorem IsDisjoint_iff (A B : Set T) :
    A.IsDisjoint B = true ↔ ∀ x, x ∈ A.elements → x ∉ B.elements := by
  simp only [Set.IsDisjoint, List.all_eq_true]
  refine forall₂_congr fun x _ => ?_
  rw [← In_iff_mem]
  cases B.In x <;> simp

/-- C15: `IsDisjoint` gives the same answer in both directions, and it is `true`
exactly when no value is a member of both sets. -/
theorem IsDisjoint_symmetric (A B : Set T) :
    A.IsDisjoint B = B.IsDisjoint A
      ∧ (A.IsDisjoint B = true ↔ ∀ x, ¬ (A.In x = true ∧ B.In x = true)) := by
  refine ⟨?_, ?_⟩
  · rw [Bool.eq_iff_iff, IsDisjoint_iff, IsDisjoint_iff]
    exact ⟨fun h x hb ha => h x ha hb, fun h x ha hb => h x hb ha⟩
  · rw [IsDisjoint_iff]
    simp only [In_iff_mem, not_and]

theorem IsDisjoint_symmetric_witness :
    (New [1, 2] : Set Int).IsDisjoint (New [3, 4]) = true
      ∧ (New [3, 4] : Set Int).IsDisjoint (New [1, 2]) = true
      ∧ (New [1, 2] : Set Int).IsDisjoint (New [2, 3]) = false :=
  ⟨by decide,
   (IsDisjoint_symmetric (New [1, 2] : Set Int) (New [3, 4])).1.symm.trans (by decide),
   by decide⟩

/-- C16: `s.IsSuperset(other)` is `true` exactly when every element stored in
`other` is a member of `s`, that is `s.In` reports it; this holds for every element
type, `float64` included. -/
theorem IsSuperset_iff {E : Type} [BEq E] (s other : Set E) :
    s.IsSuperset other = true ↔ ∀ x ∈ other.elements, s.In x = true := by
  simp only [Set.IsSuperset, List.all_eq_true]
  refine forall₂_congr fun x _ => ?_
  rw [NotIn_eq_not_In_of_any_eq, Bool.not_not]

theorem IsSuperset_iff_witness :
    (New [1, 2, 3] : Set Int).IsSuperset (New [3, 1]) = true
      ∧ (New [1, 2, 3] : Set Int).In 3 = true
      ∧ (New [1] : Set Int).IsSuperset (New [1, 2]) = false
      ∧ (New [Float64.NaN]).IsSuperset (New [Float64.NaN]) = false
      ∧ (New [Float64.NaN]).In Float64.NaN = false
      ∧ (New [Float64.num 1, Float64.NaN]).In (Float64.num 1) = true :=
  ⟨by decide,
   (IsSuperset_iff (New [1, 2, 3] : Set Int) (New [3, 1])).1 (by decide) 3
     (List.mem_cons_self 3 [1]),
   by decide,
   by decide,
   by decide,
   (IsSuperset_iff (New [Float64.num 1, Float64.NaN]) (New [Float64.num 1])).1 (by decide)
     (Float64.num 1) (List.mem_cons_self (Float64.num 1) [])⟩

/-- Where `==` is equality (integers, strings), the elements stored in `other` are its
members, so `IsSuperset` is inclusion of the members. -/
theorem IsSuperset_iff_forall_In (s other : Set T) :
    s.IsSuperset other = true ↔ ∀ x, other.In x = true → s.In x = true := by
  simp only [Set.IsSuperset, List.all_eq_true, In_iff_mem]
  refine forall₂_congr fun x _ => ?_
  rw [NotIn_eq_not_In, Bool.not_not, In_iff_mem]

theorem indexLoop_of_not_mem (item : T) (l : List T) (i : Nat) (h : item ∉ l) :
    indexLoop item l i = (-1, false) := by
  induction l generalizing i with
  | nil => rfl
  | cons a l ih =>
    have ha : a ≠ item := fun e => h (e ▸ List.mem_cons_self a l)
    have hl : item ∉ l := fun hm => h (List.mem_cons_of_mem a hm)
    have hb : (a == item) = false := beq_eq_false_iff_ne.2 ha
    simp only [Set.indexLoop, hb, Bool.false_eq_true, if_false]
    exact ih (i + 1) hl

theorem indexLoop_of_mem (item : T) (l : List T) (i : Nat) (h : item ∈ l) :
    ∃ k : Nat, indexLoop item l i = (((i + k : Nat) : Int), true)
      ∧ l[k]? = some item ∧ ∀ j, j < k → l[j]? ≠ some item := by
  induction l generalizing i with
  | nil => exact absurd h (List.not_mem_nil item)
  | cons a l ih =>
    by_cases ha : a = item
    · refine ⟨0, ?_, ?_, ?_⟩
      · simp [Set.indexLoop, ha]
      · simp [ha]
      · intro j hj; exact absurd hj (Nat.not_lt_zero j)
    · have hl : item ∈ l := by
        rcases List.mem_cons.1 h with h1 | h1
        · exact absurd h1.symm ha
        · exact h1
      obtain ⟨k, hk1, hk2, hk3⟩ := ih (i + 1) hl
      have hb : (a == item) = false := beq_eq_false_iff_ne.2 ha
      refine ⟨k + 1, ?_, ?_, ?_⟩
      · simp only [Set.indexLoop, hb, Bool.false_eq_true, if_false]
        rw [hk1]
        congr 2
        omega
      · simpa using hk2
      · intro j hj
        cases j with
        | zero =>
          simp only [List.getElem?_cons_zero, ne_eq, Option.some.injEq]
          exact ha
        | succ j =>
          simpa using hk3 j (by omega)

/-- C17: when `x` is stored, `s.Index(x)` is `(i, true)` with `i` the smallest
position holding `x`; otherwise it is `(-1, false)`; the flag equals `s.In(x)`. -/
theorem Index_first_position (s : Set T) (x : T) :
    (s.In x = true → ∃ i : Nat, s.Index x = ((i : Int), true)
        ∧ s.elements[i]? = some x ∧ ∀ j, j < i → s.elements[j]? ≠ some x)
      ∧ (s.In x = false → s.Index x = (-1, false))
      ∧ (s.Index x).2 = s.In x := by
  have h1 : s.In x = true → ∃ i : Nat, s.Index x = ((i : Int), true)
      ∧ s.elements[i]? = some x ∧ ∀ j, j < i → s.elements[j]? ≠ some x := by
    intro h
    obtain ⟨k, hk1, hk2, hk3⟩ := indexLoop_of_mem x s.elements 0 ((In_iff_mem s x).1 h)
    refine ⟨k, ?_, hk2, hk3⟩
    unfold Set.Index
    rw [hk1, Nat.zero_add]
  have h2 : s.In x = false → s.Index x = (-1, false) := fun h =>
    indexLoop_of_not_mem x s.elements 0 ((In_eq_false_iff s x).1 h)
  refine ⟨h1, h2, ?_⟩
  cases h : s.In x
  · rw [h2 h]
  · obtain ⟨i, hi, _⟩ := h1 h
    rw [hi]

theorem Index_first_position_witness :
    (New [5, 6, 7] : Set Int).Index 7 = (2, true)
      ∧ (New [5, 6, 7] : Set Int).Index 9 = (-1, false) :=
  ⟨by decide,
   (Index_first_position (New [5, 6, 7] : Set Int) 9).2.1 (by decide)⟩

/-! ## Clear -/

omit [DecidableEq T] in
theorem Clear_size (clr : Option T) (s s' : Set T) (h : Set.Clear clr s = some s') :
    s'.size = 0 := by
  unfold Set.Clear at h
  split at h
  · exact Option.noConfusion h
  · injection h with h
    rw [← h]

theorem toInt_of_lt (n : Nat) (h : n < 2 ^ 63) : toInt n = (n : Int) := by
  unfold toInt
  rw [if_pos h]

omit [DecidableEq T] in
theorem Clear_returns (clr : Option T) (s : Set T) (h : s.size ≤ s.elements.length)
    (hlen : s.elements.length < 2 ^ 63) : ∃ s', Set.Clear clr s = some s' := by
  have hsz : s.size < 2 ^ 63 := lt_of_le_of_lt h hlen
  have hc : (0 : Int) ≤ 0 ∧ (0 : Int) ≤ (s.size : Int)
      ∧ (s.size : Int) ≤ (s.elements.length : Int) :=
    ⟨le_refl _, Int.ofNat_nonneg _, Int.ofNat_le.2 h⟩
  unfold Set.Clear Set.Size Delete
  rw [toInt_of_lt s.size hsz, if_pos hc]
  exact ⟨_, rfl⟩

/-- C18: on the set reached by `New(0)`, `Remove(0)`, `Remove(0)` the counter is
`2 ^ 64 - 1`; `Clear` passes `int(size) = -1` to `slices.Delete` and panics before the
counter is reset, so the set keeps `IsEmpty() == false` and cardinality `2 ^ 64 - 1`,
under either behaviour of `slices.Delete`. -/
theorem Clear_panics_on_wrapped_counter :
    ((Set.Remove none (New [0] : Set Int) [0]).bind (fun s => Set.Remove none s [0])
        = some ⟨2 ^ 64 - 1, [0]⟩)
      ∧ ((Set.Remove (some 0) (New [0] : Set Int) [0]).bind
          (fun s => Set.Remove (some 0) s [0]) = some ⟨2 ^ 64 - 1, [0]⟩)
      ∧ toInt (⟨2 ^ 64 - 1, [0]⟩ : Set Int).Size = -1
      ∧ Set.Clear none (⟨2 ^ 64 - 1, [0]⟩ : Set Int) = none
      ∧ Set.Clear (some 0) (⟨2 ^ 64 - 1, [0]⟩ : Set Int) = none
      ∧ (⟨2 ^ 64 - 1, [0]⟩ : Set Int).IsEmpty = false
      ∧ (⟨2 ^ 64 - 1, [0]⟩ : Set Int).Cardinality = 2 ^ 64 - 1 := by
  decide

omit [DecidableEq T] in
/-- Whenever `s.Clear()` returns, `IsEmpty()` is `true` and `Cardinality()`, `Size()`
and `Length()` are 0; and it does return on every set whose counter does not exceed
the length of its stored sequence (a Go slice, so shorter than `2 ^ 63`). -/
theorem Clear_IsEmpty (clr : Option T) (s : Set T) :
    (∀ s', Set.Clear clr s = some s' →
        s'.IsEmpty = true ∧ s'.Cardinality = 0 ∧ s'.Size = 0 ∧ s'.Length = 0)
      ∧ (s.size ≤ s.elements.length → s.elements.length < 2 ^ 63 →
          ∃ s', Set.Clear clr s = some s') := by
  refine ⟨fun s' h => ?_, Clear_returns clr s⟩
  have h0 := Clear_size clr s s' h
  refine ⟨?_, h0, h0, h0⟩
  unfold Set.IsEmpty
  rw [h0]
  rfl

theorem Clear_IsEmpty_witness :
    (∃ s', Set.Clear none (New [1, 2, 3] : Set Int) = some s')
      ∧ (⟨0, [1, 2, 3]⟩ : Set Int).IsEmpty = true
      ∧ (⟨0, [0, 0, 0]⟩ : Set Int).Cardinality = 0 :=
  ⟨(Clear_IsEmpty none (New [1, 2, 3] : Set Int)).2 (by decide) (by decide),
   ((Clear_IsEmpty none (New [1, 2, 3] : Set Int)).1 ⟨0, [1, 2, 3]⟩ (by decide)).1,
   ((Clear_IsEmpty (some 0) (New [1, 2, 3] : Set Int)).1 ⟨0, [0, 0, 0]⟩ (by decide)).2.1⟩

/-! ## The helper `Equal` -/

theorem Equal_iff_of_length_eq (l1 l2 : List T) (h : l1.length = l2.length) :
    Equal l1 l2 = true ↔ ∀ a ∈ l1, ∀ b ∈ l2, a = b := by
  simp [Equal, h, List.all_eq_true]

/-- C19: `Equal` is `false` when the lengths differ; at equal lengths it is `true`
exactly when every element of the first sequence equals every element of the second;
so on non-empty sequences of equal length it is `true` only when both repeat one
single value. -/
theorem Equal_all_pairs (l1 l2 : List T) :
    (l1.length ≠ l2.length → Equal l1 l2 = false)
      ∧ (l1.length = l2.length → (Equal l1 l2 = true ↔ ∀ a ∈ l1, ∀ b ∈ l2, a = b))
      ∧ (l1.length = l2.length → l1 ≠ [] → Equal l1 l2 = true →
          ∃ v, l1 = List.replicate l1.length v ∧ l2 = List.replicate l2.length v) := by
  refine ⟨fun h => ?_, Equal_iff_of_length_eq l1 l2, fun h hne he => ?_⟩
  · simp [Equal, h]
  · have hall := (Equal_iff_of_length_eq l1 l2 h).1 he
    cases l1 with
    | nil => exact absurd rfl hne
    | cons a t =>
      cases l2 with
      | nil => simp at h
      | cons b t' =>
        have hab : a = b := hall a (List.mem_cons_self a t) b (List.mem_cons_self b t')
        refine ⟨a, List.eq_replicate_length.2 fun x hx => ?_,
          List.eq_replicate_length.2 fun y hy => ?_⟩
        · exact (hall x hx b (List.mem_cons_self b t')).trans hab.symm
        · exact (hall a (List.mem_cons_self a t) y hy).symm

theorem Equal_all_pairs_witness :
    Equal [1, 2] [1, 2, 3] = false
      ∧ Equal [1, 2] [1, 2] = false
      ∧ Equal [4, 4] [4, 4] = true
      ∧ (∃ v, [4, 4] = List.replicate 2 v ∧ [4, 4] = List.replicate 2 v) :=
  ⟨(Equal_all_pairs [1, 2] [1, 2, 3]).1 (by decide),
   by decide,
   by decide,
   (Equal_all_pairs [4, 4] [4, 4]).2.2 (by decide) (by decide) (by decide)⟩

/-! ## Well-formedness along the insertion path -/

theorem addStep_length_le_succ (s : Set T) (x : T) :
    (s.addStep x).elements.length ≤ s.elements.length + 1 := by
  by_cases hx : x ∈ s.elements
  · rw [addStep_of_mem s x hx]; exact Nat.le_succ _
  · rw [addStep_of_not_mem s x hx]; simp

theorem Add_length_le_add (s : Set T) (xs : List T) :
    (s.Add xs).elements.length ≤ s.elements.length + xs.length := by
  induction xs generalizing s with
  | nil => exact le_refl _
  | cons x xs ih =>
    rw [Add_cons, List.length_cons]
    have h1 := ih (s.addStep x)
    have h2 := addStep_length_le_succ s x
    omega

theorem Add_wellFormed (s : Set T) (xs : List T) (h : WellFormed s)
    (hb : s.elements.length + xs.length < U64) : WellFormed (s.Add xs) := by
  obtain ⟨hnd, hsz⟩ := h
  refine ⟨Add_nodup s xs hnd, ?_⟩
  have h1 := Add_size s xs
  have h2 := Add_length_le s xs
  have h3 := Add_length_le_add s xs
  have h4 : (s.Add xs).size < U64 := Add_size_lt s xs (by omega)
  rw [Nat.mod_eq_of_lt h4, hsz] at h1
  rw [h1]
  have h5 : s.elements.length + ((s.Add xs).elements.length - s.elements.length)
      = (s.Add xs).elements.length := by omega
  rw [h5]
  exact Nat.mod_eq_of_lt (by omega)

theorem New_wellFormed (xs : List T) (h : xs.length < U64) : WellFormed (New xs) := by
  refine Add_wellFormed _ xs ⟨List.nodup_nil, rfl⟩ ?_
  simpa using h

/-- C20: for Go slices (lengths below `2 ^ 63`), `Add` keeps a well-formed set well
formed, and `New`, `Copy`, `Intersection`, `Difference` and `SymmetricDifference`
return a well-formed set whatever the input sets. -/
theorem insertion_path_wellFormed (s other : Set T) (others : List (Set T)) (xs : List T)
    (hs : s.elements.length < 2 ^ 63) (ho : other.elements.length < 2 ^ 63)
    (hxs : xs.length < 2 ^ 63) :
    (WellFormed s → WellFormed (s.Add xs))
      ∧ WellFormed (New xs)
      ∧ WellFormed s.Copy
      ∧ WellFormed (s.Intersection others)
      ∧ WellFormed (s.Difference others)
      ∧ WellFormed (s.SymmetricDifference other) := by
  have hU : U64 = 2 ^ 63 + 2 ^ 63 := by unfold U64; norm_num
  refine ⟨fun h => Add_wellFormed s xs h (by omega), New_wellFormed xs (by omega), ?_, ?_, ?_, ?_⟩
  · rw [Copy_eq_New]
    exact New_wellFormed _ (by omega)
  · rw [Intersection_eq]
    refine New_wellFormed _ ?_
    have := List.length_filter_le (fun e => others.all (fun o => !o.NotIn e)) s.elements
    omega
  · rw [Difference_eq]
    refine New_wellFormed _ ?_
    have := List.length_filter_le (fun e => others.all (fun o => !o.In e)) s.elements
    omega
  · rw [SymmetricDifference_eq]
    refine New_wellFormed _ ?_
    have h1 := List.length_filter_le (fun e => other.NotIn e) s.elements
    have h2 := List.length_filter_le (fun e => s.NotIn e) other.elements
    rw [List.length_append]
    omega

theorem insertion_path_wellFormed_witness :
    WellFormed (New [1, 2, 3] : Set Int)
      ∧ WellFormed ((New [1, 2, 3] : Set Int).Add [3, 5, 5])
      ∧ WellFormed (New [3, 5, 5] : Set Int)
      ∧ ¬ WellFormed (⟨7, [1, 1, 2]⟩ : Set Int)
      ∧ WellFormed (⟨7, [1, 1, 2]⟩ : Set Int).Copy
      ∧ WellFormed ((⟨7, [1, 1, 2]⟩ : Set Int).SymmetricDifference ⟨0, [2, 2, 4]⟩) :=
  ⟨by decide,
   (insertion_path_wellFormed (New [1, 2, 3] : Set Int) (New [3, 4]) [New [2, 3]] [3, 5, 5]
      (by decide) (by decide) (by decide)).1 (by decide),
   (insertion_path_wellFormed (New [1, 2, 3] : Set Int) (New [3, 4]) [New [2, 3]] [3, 5, 5]
      (by decide) (by decide) (by decide)).2.1,
   by decide,
   (insertion_path_wellFormed (⟨7, [1, 1, 2]⟩ : Set Int) ⟨0, [2, 2, 4]⟩ [] []
      (by decide) (by decide) (by decide)).2.2.1,
   (insertion_path_wellFormed (⟨7, [1, 1, 2]⟩ : Set Int) ⟨0, [2, 2, 4]⟩ [] []
      (by decide) (by decide) (by decide)).2.2.2.2.2⟩

end GoFigure
